import Mathlib

/-!
Verification of the `oiling` rule-based morphology engine.

Shallow embedding of `src/oiling/morph_engine.py`, `morphology.py`,
`utils.py`, `prompt2features.py` and `morph_rule_adapter.py`:

* A Python feature value (`Dict[str, Any]`, in practice strings or `None`)
  is `PyVal := Option String`, with `none` standing for Python `None`.
* A Python dict is an association list with distinct keys; lookup takes the
  first binding, `dict.get` returns `none` (Python `None`) on a miss.
* Python exceptions are `Except Unit`; `re.sub` (external library, the only
  realistic raiser) is an abstract parameter of type `ReSub`.
* Python `sorted(..., key=...)` is a stable ascending sort, modelled by
  `List.insertionSort` (its stability is proved below as the filter
  characterization, so the modelling is self-certifying).
-/

namespace Oiling

/-- A Python feature value: `none` models Python `None`, `some s` a string. -/
abbrev PyVal := Option String

/-- `FeatureBundle = Dict[str, Any]` from morph_engine.py, modelled as an
association list from feature name to value. -/
abbrev FeatureBundle := List (String × PyVal)

/-- First binding of a key, i.e. Python `feats[key]` / `key in feats`. -/
def fbGet : FeatureBundle → String → Option PyVal
  | [], _ => none
  | p :: fb, k => if p.1 == k then some p.2 else fbGet fb k

/-- Python `feats.get(key)`: the stored value, or `None` when absent. -/
def pyGet (fb : FeatureBundle) (k : String) : PyVal :=
  (fbGet fb k).getD none

/-- Python `key in feats`. -/
def hasKey : FeatureBundle → String → Bool
  | [], _ => false
  | p :: fb, k => p.1 == k || hasKey fb k

/-- Python `f"{value}"` on a feature value: `None` prints as "None". -/
def pyValStr : PyVal → String
  | none => "None"
  | some s => s

/-- morph_engine._match: return True when all items in `need` match `feats`
(`feats.get(key) != value` fails the match). -/
def matchFB (feats need : FeatureBundle) : Bool :=
  need.all (fun p => pyGet feats p.1 == p.2)

/-- The five concrete `MorphRule` subclasses of morph_engine.py as a closed
sum: `base` is the base class (identity `apply`), `pre`/`suf`/`circum`/`tmpl`
carry the fixed affix strings, `rew` the regex pattern, replacement and flags
of `RewriteRule`. -/
inductive RuleBody where
  | base
  | pre (p : String)
  | suf (s : String)
  | circum (pre post : String)
  | tmpl (template : String)
  | rew (pattern repl : String) (flags : Int)
deriving DecidableEq

/-- morph_engine.MorphRule: `name`, `when` precondition, `order`, plus the
subclass payload. -/
structure MorphRule where
  name : String
  when : FeatureBundle
  order : Int
  body : RuleBody
deriving DecidableEq

/-- MorphRule.applies: `_match(feats, self.when)`. -/
def MorphRule.applies (r : MorphRule) (feats : FeatureBundle) : Bool :=
  matchFB feats r.when

/-- Abstract model of Python `re.sub(pattern, repl, surface, flags=flags)`:
an external library call that may raise (e.g. on an invalid pattern),
modelled as a parameter returning `Except`. -/
abbrev ReSub := String → String → Int → String → Except Unit String

/-- The `apply(surface, feats)` methods of the five rule subclasses; each
re-checks `applies` and is the identity when it fails. `TemplateRule`
interpolates via `str.replace` on the `STEM` placeholder; `RewriteRule`
returns the surface unchanged when the pattern is empty, otherwise calls
`re.sub`, the only fallible case. -/
def MorphRule.apply (reSub : ReSub) (r : MorphRule) (surface : String)
    (feats : FeatureBundle) : Except Unit String :=
  match r.body with
  | .base => Except.ok surface
  | .pre p => Except.ok (if r.applies feats then p ++ surface else surface)
  | .suf s => Except.ok (if r.applies feats then surface ++ s else surface)
  | .circum a b =>
      Except.ok (if r.applies feats then a ++ surface ++ b else surface)
  | .tmpl t =>
      Except.ok
        (if r.applies feats then t.replace "\x7bSTEM\x7d" surface else surface)
  | .rew pat rep flags =>
      if !(r.applies feats) || pat == "" then Except.ok surface
      else reSub pat rep flags surface

/-- morph_engine.Lexeme: citation form, stem, default features, irregular
overrides (a dict from signature string to literal surface form). -/
structure Lexeme where
  lem : String
  stem : String
  features : FeatureBundle
  irregular : List (String × String)
deriving DecidableEq

/-- Lookup in a Python `Dict[str, str]` modelled as an association list. -/
def lookupStr : List (String × String) → String → Option String
  | [], _ => none
  | p :: m, k => if p.1 == k then some p.2 else lookupStr m k

/-- Insert a string into an ascending list (by code points, as Python
compares strings). -/
def insortStr (k : String) : List String → List String
  | [] => [k]
  | x :: xs => if k ≤ x then k :: x :: xs else x :: insortStr k xs

/-- Python `sorted` on a list of strings. -/
def sortStrings : List String → List String
  | [] => []
  | x :: xs => insortStr x (sortStrings xs)

/-- Generator._signature: sort the feature keys, join `key=value` pairs with
the separator bar. -/
def signatureOf (feats : FeatureBundle) : String :=
  String.intercalate "|"
    ((sortStrings (feats.map (fun p => p.1))).map
      (fun k => k ++ "=" ++ pyValStr (pyGet feats k)))

/-- Ordering used by Generator.__init__: ascending `order`. -/
def ruleLE (a b : MorphRule) : Prop := a.order ≤ b.order

instance : DecidableRel ruleLE :=
  fun a b => inferInstanceAs (Decidable (a.order ≤ b.order))

instance : IsTotal MorphRule ruleLE := ⟨fun a b => Int.le_total a.order b.order⟩

instance : IsTrans MorphRule ruleLE := ⟨fun _ _ _ h1 h2 => le_trans h1 h2⟩

/-- morph_engine.Generator: owns the order-sorted rule list. -/
structure Generator where
  rules : List MorphRule

/-- Generator.__init__: `self.rules = sorted(list(rules), key=lambda rule:
rule.order)`; Python `sorted` is a stable ascending sort, which
`List.insertionSort` implements (stability proved below). -/
def Generator.init (rules : List MorphRule) : Generator :=
  ⟨List.insertionSort ruleLE rules⟩

/-- Python dict merge `{**a, **b}`: the entries of `a` in order, each
overridden by `b` where `b` has the key, followed by the entries of `b`
whose keys are new. -/
def mergeFB (a b : FeatureBundle) : FeatureBundle :=
  a.map (fun p => (p.1, (fbGet b p.1).getD p.2))
    ++ b.filter (fun p => !(hasKey a p.1))

/-- The rule loop of Generator.generate: for each rule that applies, replace
the surface with `rule.apply(surface, feats)`; an exception propagates. -/
def applyRules (reSub : ReSub) :
    List MorphRule → String → FeatureBundle → Except Unit String
  | [], surface, _ => Except.ok surface
  | r :: rest, surface, feats =>
    if r.applies feats then
      match r.apply reSub surface feats with
      | Except.ok s => applyRules reSub rest s feats
      | Except.error e => Except.error e
    else applyRules reSub rest surface feats

/-- Generator.generate: irregular lookup by signature short-circuits;
otherwise fold the rules over the stem with the merged feature bundle. -/
def Generator.generate (reSub : ReSub) (g : Generator) (lexeme : Lexeme)
    (target : FeatureBundle) : Except Unit String :=
  match lookupStr lexeme.irregular (signatureOf target) with
  | some v => Except.ok v
  | none => applyRules reSub g.rules lexeme.stem (mergeFB lexeme.features target)

/-- Insert a key/value pair into a list ascending by key. -/
def insortPair (p : String × PyVal) :
    List (String × PyVal) → List (String × PyVal)
  | [] => [p]
  | q :: qs => if p.1 ≤ q.1 then p :: q :: qs else q :: insortPair p qs

/-- Canonical serialization of a feature bundle, modelling
`json.dumps(bundle, sort_keys=True)`: the bindings listed in ascending key
order (injective on dicts, whose keys are distinct). -/
def canon (fb : FeatureBundle) : List (String × PyVal) :=
  fb.foldr insortPair []

/-- The fixed abbreviation table of MorphologySolution._create_label
(the `class` entry, a lambda in the source, is special-cased in
`labelToken`). -/
def abbrevTable : List (String × List (String × String)) :=
  [("num", [("sg", "SG"), ("pl", "PL")]),
   ("tense", [("past", "PST"), ("pres", "PRS"), ("fut", "FUT")]),
   ("person", [("1", "1"), ("2", "2"), ("3", "3")]),
   ("cat", [("verb", "V"), ("noun", "N"), ("adj", "ADJ"), ("agent", "AGT")]),
   ("polarity", [("neg", "NEG"), ("pos", "POS")])]

/-- One token of a label: the abbreviation when the (key, value) pair is
known, `CL` prefixed to the value for `class`, literal `key=value` text
otherwise. -/
def labelToken (k : String) (v : PyVal) : String :=
  if k == "class" then "CL" ++ pyValStr v
  else
    match abbrevTable.find? (fun e => e.1 == k) with
    | some e =>
      match lookupStr e.2 (pyValStr v) with
      | some code => code
      | none => k ++ "=" ++ pyValStr v
    | none => k ++ "=" ++ pyValStr v

/-- MorphologySolution._create_label: dot-join one token per sorted feature
key; an empty bundle labels as `base`. -/
def createLabel (features : FeatureBundle) : String :=
  if features.isEmpty then "base"
  else
    String.intercalate "."
      ((sortStrings (features.map (fun p => p.1))).map
        (fun k => labelToken k (pyGet features k)))

/-- The rule loop of MorphologySolution.infer_paradigm: append the `when`
bundle of each rule (in the given order) whose canonical serialization has
not been seen. -/
def paradigmLoop :
    List MorphRule → List (List (String × PyVal)) →
      List (String × FeatureBundle)
  | [], _ => []
  | r :: rest, seen =>
    let key := canon r.when
    if key ∈ seen then paradigmLoop rest seen
    else (createLabel r.when, r.when) :: paradigmLoop rest (key :: seen)

/-- MorphologySolution.infer_paradigm: empty for an empty rule list;
otherwise the fixed `("base", {})` entry followed by the deduplicated
`when` bundles of the rules in ascending order. -/
def inferParadigm (g : Generator) : List (String × FeatureBundle) :=
  if g.rules.isEmpty then []
  else ("base", []) :: paradigmLoop (List.insertionSort ruleLE g.rules) [[]]

/-- Output format selector of format_table / get_table. -/
inductive TableFormat where
  | pretty
  | json
deriving DecidableEq

/-- The literal produced by `json.dumps` on the fixed empty-table object in
the empty branch of format_table: the compact JSON text
of the object with empty columns, empty rows and total_rows zero. -/
def emptyTableJson : String :=
  "\x7b\"columns\": [], \"rows\": [], \"total_rows\": 0\x7d"

/-- Lexeme selection of format_table: all lexicon entries, or those whose
lemma key lies in the subset (lexicon iteration order). -/
def selectLexemes (lexicon : List (String × Lexeme))
    (subset : Option (List String)) : List (String × Lexeme) :=
  match subset with
  | none => lexicon
  | some names => lexicon.filter (fun p => names.contains p.1)

/-- One table cell: `generate` with the per-cell try/except of format_table,
rendering any exception as the em dash. -/
def genCell (reSub : ReSub) (g : Generator) (lexeme : Lexeme)
    (feats : FeatureBundle) : String :=
  match g.generate reSub lexeme feats with
  | Except.ok s => s
  | Except.error _ => "—"

/-- One data row of format_table: the lemma key, then one generated cell per
feature combination. -/
def buildRow (reSub : ReSub) (g : Generator) (lemmaName : String)
    (lexeme : Lexeme) (combos : List (String × FeatureBundle)) : List String :=
  lemmaName :: combos.map (fun c => genCell reSub g lexeme c.2)

/-- The row loop of format_table: one row per selected lexeme. -/
def buildRows (reSub : ReSub) (g : Generator)
    (lexemes : List (String × Lexeme))
    (combos : List (String × FeatureBundle)) : List (List String) :=
  lexemes.map (fun p => buildRow reSub g p.1 p.2 combos)

/-- JSON string escaping of `json.dumps(..., ensure_ascii=False)`. -/
def jsonEscape (s : String) : String :=
  String.join (s.toList.map (fun c =>
    if c = '"' then "\\\""
    else if c = '\\' then "\\\\"
    else if c = '\n' then "\\n"
    else if c = '\t' then "\\t"
    else if c = '\r' then "\\r"
    else if c.val < 32 then
      "\\u00" ++ String.mk [hexDigit (c.val.toNat / 16), hexDigit (c.val.toNat % 16)]
    else String.singleton c))
where
  hexDigit (n : Nat) : Char :=
    if n < 10 then Char.ofNat (48 + n) else Char.ofNat (87 + n)

/-- A JSON string literal. -/
def jsonStr (s : String) : String := "\"" ++ jsonEscape s ++ "\""

/-- Column name derivation of _format_as_json: lower-case the header and
replace spaces with underscores. -/
def snakeName (h : String) : String := (h.toLower).replace " " "_"

/-- _format_as_json: `json.dumps({"columns": ..., "rows": ...,
"total_rows": len(rows)}, indent=2, ensure_ascii=False)`. -/
def formatAsJson (headers : List String) (rows : List (List String)) :
    String :=
  let colObjs := headers.map (fun h =>
    "    \x7b\n      \"name\": " ++ jsonStr (snakeName h)
      ++ ",\n      \"type\": \"string\"\n    \x7d")
  let colsBlock :=
    if colObjs.isEmpty then "[]"
    else "[\n" ++ String.intercalate ",\n" colObjs ++ "\n  ]"
  let rowBlocks := rows.map (fun row =>
    let cells := row.map (fun c => "      " ++ jsonStr c)
    if cells.isEmpty then "    []"
    else "    [\n" ++ String.intercalate ",\n" cells ++ "\n    ]")
  let rowsBlock :=
    if rowBlocks.isEmpty then "[]"
    else "[\n" ++ String.intercalate ",\n" rowBlocks ++ "\n  ]"
  "\x7b\n  \"columns\": " ++ colsBlock ++ ",\n  \"rows\": " ++ rowsBlock
    ++ ",\n  \"total_rows\": " ++ toString rows.length ++ "\n\x7d"

/-- Left-justified padding `f"{s:<{w}}"`. -/
def padTo (s : String) (w : Nat) : String :=
  s ++ String.mk (List.replicate (w - s.length) ' ')

/-- The column-width loop of _format_as_pretty_table. -/
def updateWidths : List Nat → List String → List Nat
  | ws, [] => ws
  | [], _ => []
  | w :: ws, c :: cs => max w c.length :: updateWidths ws cs

/-- One bordered cell `f" {cell:<{w}} "` per column. -/
def prettyCells : List String → List Nat → List String
  | [], _ => []
  | _, [] => []
  | c :: cs, w :: ws => (" " ++ padTo c w ++ " ") :: prettyCells cs ws

/-- _format_as_pretty_table: fixed-width Unicode box-drawing table. -/
def formatAsPretty (headers : List String) (rows : List (List String)) :
    String :=
  let ws := rows.foldl (fun ws row => updateWidths ws row)
    (headers.map (fun h => h.length))
  let bar (l m r : String) : String :=
    l ++ String.intercalate m
      (ws.map (fun w => String.mk (List.replicate (w + 2) '─'))) ++ r
  let line (cells : List String) : String :=
    "│" ++ String.intercalate "│" (prettyCells cells ws) ++ "│"
  String.intercalate "\n"
    ((bar "┌" "┬" "┐" :: line headers :: bar "├" "┼" "┤"
      :: rows.map line) ++ [bar "└" "┴" "┘"])

/-- ParadigmTableFormatter.format_table (identical to
MorphologySolution.get_table): select the lexemes, return the documented
empty results when either dimension is empty, otherwise build the header
and data rows and render them in the requested format. -/
def format_table (reSub : ReSub) (g : Generator)
    (lexicon : List (String × Lexeme))
    (combos : List (String × FeatureBundle))
    (subset : Option (List String)) (fmt : TableFormat) : String :=
  let toShow := selectLexemes lexicon subset
  if toShow.isEmpty || combos.isEmpty then
    match fmt with
    | TableFormat.pretty => ""
    | TableFormat.json => emptyTableJson
  else
    let headers := "Lemma" :: combos.map (fun c => c.1)
    let rows := buildRows reSub g toShow combos
    match fmt with
    | TableFormat.json => formatAsJson headers rows
    | TableFormat.pretty => formatAsPretty headers rows

/-- The external prompt oracle (`_nltk_guess` of prompt2features.py,
wrapping the optional NLTK dependency): `none` models the Python `None`
returned when no confident guess exists, e.g. whenever NLTK is absent. -/
abbrev PromptOracle := String → Option (String × FeatureBundle)

/-- Python `str.strip()`: drop leading and trailing whitespace. -/
def pyStrip (s : String) : String :=
  String.mk
    ((s.toList.dropWhile Char.isWhitespace).reverse.dropWhile
      Char.isWhitespace).reverse

/-- Python `str.lower()`, character by character. -/
def pyLower (s : String) : String := String.mk (s.toList.map Char.toLower)

/-- prompt2features.english_prompt_to_request: empty input maps to the empty
request; otherwise the NLTK guess is returned when truthy, and since the
remaining heuristics are commented out in the source, the function falls
off the end — Python returns `None`, modelled as `none`. -/
def english_prompt_to_request (oracle : PromptOracle) (text : String) :
    Option (String × FeatureBundle) :=
  let s := pyLower (pyStrip text)
  if s == "" then some ("", [])
  else oracle s

/-- The vowel test `lemma[-1] not in "aeiou"` of _lemma_variants. -/
def isVowel (c : Char) : Bool :=
  c == 'a' || c == 'e' || c == 'i' || c == 'o' || c == 'u'

/-- Python `lemma[-1] == lemma[-2]` (guarded by `len(lemma) > 1`). -/
def lastTwoEqual (lem : String) : Bool :=
  match lem.toList.reverse with
  | a :: b :: _ => a == b
  | _ => false

/-- Python `lemma[:-1]`. -/
def dropLastChar (lem : String) : String := String.mk lem.toList.dropLast

/-- RootedMorphRule._lemma_variants: the silent-e variant when the lemma
does not end in a vowel, then the degeminated variant when its last two
characters are equal. -/
def lemmaVariants (lem : String) : List String :=
  (if lem != "" && !(isVowel lem.back) then [lem ++ "e"] else [])
    ++ (if lem.length > 1 && lastTwoEqual lem then [dropLastChar lem] else [])

/-- The seen-set dedup of RootedMorphRule._lemma_candidates, keeping first
occurrences in order. -/
def dedupKeepFirst : List String → List String
  | [] => []
  | x :: xs => x :: (dedupKeepFirst xs).filter (fun y => y != x)

/-- RootedMorphRule._lemma_candidates: the lemma itself, then its variants,
deduplicated. -/
def lemmaCandidates (lem : String) : List String :=
  dedupKeepFirst (lem :: lemmaVariants lem)

/-- Lookup in the lexicon dict. -/
def lookupLex : List (String × Lexeme) → String → Option Lexeme
  | [], _ => none
  | p :: m, k => if p.1 == k then some p.2 else lookupLex m k

/-- RootedMorphRule._resolve_lexeme: first candidate hitting the lexicon. -/
def resolveLexeme (lexicon : List (String × Lexeme)) (lem : String) :
    Option Lexeme :=
  go (lemmaCandidates lem)
where
  go : List String → Option Lexeme
    | [] => none
    | c :: cs =>
      match lookupLex lexicon c with
      | some lexeme => some lexeme
      | none => go cs

/-- morph_rule_adapter.RootedMorphRule.apply: interpret the prompt, pass the
input through on an empty lemma or a lexicon miss, otherwise generate.
When `english_prompt_to_request` returns Python `None` (no confident
mapping), the tuple unpacking `lemma, feats = ...` raises `TypeError`,
modelled as `Except.error`. -/
def RootedMorphRule.apply (oracle : PromptOracle) (reSub : ReSub)
    (g : Generator) (lexicon : List (String × Lexeme)) (data : String) :
    Except Unit String :=
  match english_prompt_to_request oracle data with
  | none => Except.error ()
  | some (lem, feats) =>
    if lem == "" then Except.ok data
    else
      match resolveLexeme lexicon lem with
      | none => Except.ok data
      | some lexeme => g.generate reSub lexeme feats

/-- A `ReSub` instantiation for rule sets without rewrite rules (never
reached there): `re.sub` modelled as the identity. -/
def reSubNone : ReSub := fun _ _ _ s => Except.ok s

/-- A `ReSub` instantiation on which every `re.sub` call raises (e.g. an
invalid pattern). -/
def reSubFail : ReSub := fun _ _ _ _ => Except.error ()

/-- Worked example: agent-singular circumfix um-, -i on cat=agent, num=sg,
order 10. -/
def ruleAgentSg : MorphRule :=
  { name := "agent-sg", when := [("cat", some "agent"), ("num", some "sg")],
    order := 10, body := RuleBody.circum "um" "i" }

/-- Worked example: agent-plural circumfix aba-, -i on cat=agent, num=pl,
order 10. -/
def ruleAgentPl : MorphRule :=
  { name := "agent-pl", when := [("cat", some "agent"), ("num", some "pl")],
    order := 10, body := RuleBody.circum "aba" "i" }

/-- Worked example: verb suffix `-a` on cat=verb, order 20. -/
def ruleVerbBare : MorphRule :=
  { name := "verb-bare", when := [("cat", some "verb")],
    order := 20, body := RuleBody.suf "a" }

/-- The three worked-example rules in declaration order. -/
def demoRules : List MorphRule := [ruleAgentSg, ruleAgentPl, ruleVerbBare]

/-- Worked example lexeme paint, stem dweb. -/
def lexPaint : Lexeme :=
  { lem := "paint", stem := "dweb", features := [], irregular := [] }

/-- Worked example lexeme hunt, stem zingel. -/
def lexHunt : Lexeme :=
  { lem := "hunt", stem := "zingel", features := [], irregular := [] }

/-- Worked example lexeme kill, stem bulal. -/
def lexKill : Lexeme :=
  { lem := "kill", stem := "bulal", features := [], irregular := [] }

/-- Worked example lexeme carve, stem baz. -/
def lexCarve : Lexeme :=
  { lem := "carve", stem := "baz", features := [], irregular := [] }

/-- The worked-example lexicon. -/
def demoLexicon : List (String × Lexeme) :=
  [("paint", lexPaint), ("hunt", lexHunt), ("kill", lexKill),
   ("carve", lexCarve)]

/-- The generator of the worked example. -/
def demoGen : Generator := Generator.init demoRules

/-- A lexeme with an irregular override reachable from the tense=past
signature. -/
def lexGo : Lexeme :=
  { lem := "go", stem := "go", features := [],
    irregular := [("tense=past", "went")] }

/-- A lexeme carrying default features that the target bundle overrides. -/
def lexDefaults : Lexeme :=
  { lem := "carve", stem := "baz",
    features := [("cat", some "noun"), ("num", some "sg")], irregular := [] }

/-- A rule whose `when` maps a key to Python `None`. -/
def ruleWhenNone : MorphRule :=
  { name := "none-rule", when := [("num", none)], order := 0,
    body := RuleBody.base }

/-- A rule whose `when` maps one key to `None` and another to a string. -/
def ruleNonePlus : MorphRule :=
  { name := "none-plus", when := [("a", none), ("b", some "x")], order := 0,
    body := RuleBody.base }

/-- A rewrite rule (fallible via `re.sub`) firing on cat=boom. -/
def ruleBadRew : MorphRule :=
  { name := "bad-rew", when := [("cat", some "boom")], order := 5,
    body := RuleBody.rew "(" "" 0 }

/-- Rule set mixing the fallible rewrite rule with an affix rule. -/
def tableRules : List MorphRule := [ruleBadRew, ruleVerbBare]

/-- Generator over `tableRules`. -/
def tableGen : Generator := Generator.init tableRules

/-- Two feature combinations: the first makes the rewrite rule fire (and
raise under `reSubFail`), the second generates normally. -/
def tableCombos : List (String × FeatureBundle) :=
  [("boom", [("cat", some "boom")]), ("verb", [("cat", some "verb")])]

/-- An oracle returning a confident verb request for a lemma that is absent
from the worked-example lexicon. -/
def oracleDepict : PromptOracle :=
  fun _ => some ("depict", [("cat", some "verb")])

/-- The matching criterion in the words of claim C3 (for comparison with the
code's `matchFB`): every key of `need` is present in `feats` with an equal
value. -/
def whenPresentEq (feats need : FeatureBundle) : Bool :=
  need.all (fun p => fbGet feats p.1 == some p.2)

/-- A key is absent from a bundle exactly when its lookup misses. -/
theorem hasKey_false_iff (fb : FeatureBundle) (k : String) :
    hasKey fb k = false ↔ fbGet fb k = none := by
  induction fb with
  | nil => simp [hasKey, fbGet]
  | cons p fb ih => cases h : p.1 == k <;> simp [hasKey, fbGet, h, ih]

/-- The match loop succeeds exactly when every needed binding reads back
equal through `dict.get`. -/
theorem matchFB_iff (feats need : FeatureBundle) :
    matchFB feats need = true ↔ ∀ p ∈ need, pyGet feats p.1 = p.2 := by
  simp [matchFB, List.all_eq_true]

/-- Lookup distributes over list append. -/
theorem fbGet_append (l1 l2 : FeatureBundle) (k : String) :
    fbGet (l1 ++ l2) k = (fbGet l1 k).or (fbGet l2 k) := by
  induction l1 with
  | nil => simp [fbGet]
  | cons p l1 ih => cases h : p.1 == k <;> simp [fbGet, h, ih]

/-- Lookup in the overridden copy of the defaults inside `mergeFB`. -/
theorem fbGet_merge_map (a b : FeatureBundle) (k : String) :
    fbGet (a.map (fun p => (p.1, (fbGet b p.1).getD p.2))) k
      = (fbGet a k).map (fun v => (fbGet b k).getD v) := by
  induction a with
  | nil => simp [fbGet]
  | cons p a ih =>
    cases h : p.1 == k
    · simp [fbGet, h, ih]
    · have e : p.1 = k := by simpa using h
      subst e
      simp [fbGet]

/-- Lookup in the appended new-key part of `mergeFB`: for a key absent from
the defaults, the filter is transparent. -/
theorem fbGet_merge_filter (a b : FeatureBundle) (k : String)
    (ha : hasKey a k = false) :
    fbGet (b.filter (fun p => !(hasKey a p.1))) k = fbGet b k := by
  induction b with
  | nil => simp
  | cons q b ih =>
    cases hq : q.1 == k
    · cases hk : hasKey a q.1 <;> simp [List.filter, fbGet, hq, hk, ih]
    · have e : q.1 = k := by simpa using hq
      subst e
      simp [List.filter, fbGet, ha]

/-- Lookup in the Python merge `{**a, **b}`: the value of `b` where `b` has
the key, else the value of `a`. -/
theorem fbGet_mergeFB (a b : FeatureBundle) (k : String) :
    fbGet (mergeFB a b) k = (fbGet b k).or (fbGet a k) := by
  unfold mergeFB
  rw [fbGet_append, fbGet_merge_map]
  cases ha : fbGet a k with
  | none =>
    rw [fbGet_merge_filter a b k ((hasKey_false_iff a k).mpr ha)]
    cases fbGet b k <;> simp
  | some v => cases fbGet b k <;> simp

/-- When the irregular lookup misses, `generate` is the rule fold over the
stem with the merged feature bundle. -/
theorem generate_eq_applyRules (reSub : ReSub) (g : Generator)
    (lexeme : Lexeme) (target : FeatureBundle)
    (h : lookupStr lexeme.irregular (signatureOf target) = none) :
    g.generate reSub lexeme target
      = applyRules reSub g.rules lexeme.stem (mergeFB lexeme.features target) := by
  unfold Generator.generate
  rw [h]

/-- C1: whenever the canonical signature of the target bundle (keys sorted,
key=value pairs joined with the bar separator) is a key of
`lexeme.irregular`, `Generator.generate` returns exactly the stored literal,
for every rule list whatsoever — so no rule in the generator's list is
applied (the result does not depend on the rules, not even on fallible
rewrite rules). -/
theorem generate_irregular_short_circuit (reSub : ReSub)
    (rules : List MorphRule) (lexeme : Lexeme) (target : FeatureBundle)
    (v : String)
    (h : lookupStr lexeme.irregular (signatureOf target) = some v) :
    (Generator.init rules).generate reSub lexeme target = Except.ok v := by
  unfold Generator.generate
  rw [h]

/-- C1 witness: the lexeme `go` stores `went` under the signature
`tense=past`; `generate` returns it under the worked-example rules. -/
theorem generate_irregular_short_circuit_w :
    (Generator.init demoRules).generate reSubNone lexGo
      [("tense", some "past")] = Except.ok "went" :=
  generate_irregular_short_circuit reSubNone demoRules lexGo
    [("tense", some "past")] "went" rfl

/-- C2: the four worked-example surface forms of the spec: paint/dweba,
hunt/umzingeli, kill/ababulali, carve/baza. -/
theorem generate_worked_examples :
    demoGen.generate reSubNone lexPaint [("cat", some "verb")]
        = Except.ok "dweba"
    ∧ demoGen.generate reSubNone lexHunt
        [("cat", some "agent"), ("num", some "sg")] = Except.ok "umzingeli"
    ∧ demoGen.generate reSubNone lexKill
        [("cat", some "agent"), ("num", some "pl")] = Except.ok "ababulali"
    ∧ demoGen.generate reSubNone lexCarve [("cat", some "verb")]
        = Except.ok "baza" :=
  ⟨rfl, rfl, rfl, rfl⟩

/-- C3 counterexample: the rule whose `when` maps `num` to Python `None`
applies to the empty bundle even though `num` is not present in it, so
"applies iff every key in `when` is present in the bundle with equal value"
is false as stated. -/
theorem applies_presence_counterexample :
    ruleWhenNone.applies [] = true
    ∧ whenPresentEq [] ruleWhenNone.when = false :=
  ⟨rfl, rfl⟩

/-- C3 amended: a rule applies iff every key of `when` reads back equal
through `dict.get` (which returns `None` for a missing key). Consequently
extra bundle keys are ignored, an empty `when` matches every bundle, and a
bundle missing a key that `when` references with a non-None value fails the
match without raising; the spec's concrete partial-match example holds. -/
theorem applies_partial_match (r : MorphRule) (feats : FeatureBundle) :
    (r.applies feats = true ↔ ∀ p ∈ r.when, pyGet feats p.1 = p.2)
    ∧ (r.when = [] → r.applies feats = true)
    ∧ (∀ p ∈ r.when, p.2 ≠ none → hasKey feats p.1 = false →
        r.applies feats = false)
    ∧ matchFB [("cat", some "verb"), ("num", some "sg")]
        [("cat", some "verb")] = true
    ∧ matchFB [("cat", some "noun")] [("cat", some "verb")] = false := by
  refine ⟨matchFB_iff feats r.when, ?_, ?_, rfl, rfl⟩
  · intro h
    simp [MorphRule.applies, matchFB, h]
  · intro p hp hne hk
    have hnone : pyGet feats p.1 = none := by
      simp [pyGet, (hasKey_false_iff feats p.1).mp hk]
    rcases h : r.applies feats with _ | _
    · rfl
    · exact absurd ((matchFB_iff feats r.when).mp h p hp) (hnone ▸ fun e => hne e.symm)

/-- C3 witness: the amended statement instantiated at the worked-example
verb rule and a bundle with an extra key. -/
theorem applies_partial_match_w :
    (ruleVerbBare.applies [("cat", some "verb"), ("num", some "sg")] = true
      ↔ ∀ p ∈ ruleVerbBare.when,
          pyGet [("cat", some "verb"), ("num", some "sg")] p.1 = p.2)
    ∧ (ruleVerbBare.when = [] →
        ruleVerbBare.applies [("cat", some "verb"), ("num", some "sg")] = true)
    ∧ (∀ p ∈ ruleVerbBare.when, p.2 ≠ none →
        hasKey [("cat", some "verb"), ("num", some "sg")] p.1 = false →
        ruleVerbBare.applies [("cat", some "verb"), ("num", some "sg")] = false)
    ∧ matchFB [("cat", some "verb"), ("num", some "sg")]
        [("cat", some "verb")] = true
    ∧ matchFB [("cat", some "noun")] [("cat", some "verb")] = false :=
  applies_partial_match ruleVerbBare [("cat", some "verb"), ("num", some "sg")]

/-- C10 counterexample: `ruleNonePlus` maps key `a` to `None`, the empty
bundle lacks `a` entirely, yet `applies` returns false (its other `when`
entry fails) — refuting the claim's universal statement. -/
theorem none_when_counterexample :
    ruleNonePlus.when.any (fun p => p.2 == none) = true
    ∧ hasKey ([] : FeatureBundle) "a" = false
    ∧ ruleNonePlus.applies [] = false :=
  ⟨rfl, rfl, rfl⟩

/-- C10 amended: a `when` entry carrying `None` is satisfied by a bundle
lacking its key (a missing key is read back as `None` by `dict.get`);
hence a rule all of whose `when` values are `None` applies to any bundle
lacking all those keys, e.g. `when = \x7bk: None\x7d` fires on bundles that
do not mention `k` at all. -/
theorem applies_none_when_absent (r : MorphRule) (feats : FeatureBundle)
    (hall : ∀ p ∈ r.when, p.2 = (none : PyVal))
    (habs : ∀ p ∈ r.when, hasKey feats p.1 = false) :
    r.applies feats = true := by
  refine (matchFB_iff feats r.when).mpr (fun p hp => ?_)
  have h2 := (hasKey_false_iff feats p.1).mp (habs p hp)
  simp [pyGet, h2, hall p hp]

/-- C10 witness: the single-entry None rule fires on a bundle that does not
mention its key. -/
theorem applies_none_when_absent_w :
    ruleWhenNone.applies [("b", some "y")] = true :=
  applies_none_when_absent ruleWhenNone [("b", some "y")]
    (by decide) (by decide)

/-- C4 (code bug): with the NLTK oracle yielding no confident guess (e.g.
whenever NLTK is absent), `english_prompt_to_request` falls off the end of
the function — the heuristic fallback is commented out, so Python returns
`None` despite the declared pair return type — and `RootedMorphRule.apply`
raises `TypeError` unpacking it instead of passing the input through
unchanged. The empty-input and lexicon-miss paths do pass the input
through. -/
theorem rooted_rule_unparsed_input :
    english_prompt_to_request (fun _ => none) "cat" = none
    ∧ RootedMorphRule.apply (fun _ => none) reSubNone demoGen demoLexicon
        "cat" = Except.error ()
    ∧ RootedMorphRule.apply (fun _ => none) reSubNone demoGen demoLexicon
        "" = Except.ok ""
    ∧ RootedMorphRule.apply oracleDepict reSubNone demoGen demoLexicon
        "to depict" = Except.ok "to depict" :=
  ⟨rfl, rfl, rfl, rfl⟩

/-- C9: with an empty feature-combination list, or an empty selected lexeme
set (lexeme_subset = [] or an empty lexicon), format_table returns the
empty string in pretty format and the compact serialized empty-table JSON
object in json format. -/
theorem format_table_empty (reSub : ReSub) (g : Generator)
    (lexicon : List (String × Lexeme))
    (combos : List (String × FeatureBundle))
    (subset : Option (List String)) :
    (format_table reSub g lexicon [] subset TableFormat.pretty = ""
      ∧ format_table reSub g lexicon [] subset TableFormat.json
          = emptyTableJson)
    ∧ (format_table reSub g lexicon combos (some []) TableFormat.pretty = ""
      ∧ format_table reSub g lexicon combos (some []) TableFormat.json
          = emptyTableJson)
    ∧ (format_table reSub g [] combos subset TableFormat.pretty = ""
      ∧ format_table reSub g [] combos subset TableFormat.json
          = emptyTableJson) := by
  have hsel : selectLexemes lexicon (some []) = [] := by
    simp [selectLexemes]
  have hnil : selectLexemes [] subset = [] := by
    cases subset <;> simp [selectLexemes]
  refine ⟨⟨?_, ?_⟩, ⟨?_, ?_⟩, ⟨?_, ?_⟩⟩ <;>
    simp [format_table, hsel, hnil]

/-- C8: each table cell catches its own generation failure: for any selected
lexeme row and any feature-combination column, the produced table row exists
in full — the lemma cell plus one cell per column — a failing cell renders
as the em dash while every succeeding cell carries its generated value, so
one failing cell never aborts its row or the table. -/
theorem table_cell_error_isolated (reSub : ReSub) (g : Generator)
    (lexemes : List (String × Lexeme))
    (combos : List (String × FeatureBundle)) (i j : Nat) (nm : String)
    (lexeme : Lexeme) (label : String) (feats : FeatureBundle)
    (hi : lexemes[i]? = some (nm, lexeme))
    (hj : combos[j]? = some (label, feats)) :
    ∃ row, (buildRows reSub g lexemes combos)[i]? = some row
      ∧ row.length = combos.length + 1
      ∧ row[0]? = some nm
      ∧ row[j + 1]? = some (genCell reSub g lexeme feats)
      ∧ (∀ e, g.generate reSub lexeme feats = Except.error e →
          genCell reSub g lexeme feats = "—")
      ∧ (∀ v, g.generate reSub lexeme feats = Except.ok v →
          genCell reSub g lexeme feats = v) := by
  refine ⟨buildRow reSub g nm lexeme combos, ?_, ?_, ?_, ?_, ?_, ?_⟩
  · rw [buildRows, List.getElem?_map, hi]
    rfl
  · simp [buildRow]
  · simp [buildRow]
  · rw [buildRow, List.getElem?_cons_succ, List.getElem?_map, hj]
    rfl
  · intro e he
    simp [genCell, he]
  · intro v hv
    simp [genCell, hv]

/-- C8 witness: under `reSubFail` the rewrite rule of `tableGen` raises on
the first combination; the paint row still exists with its em-dash cell. -/
theorem table_cell_error_isolated_w :
    ∃ row, (buildRows reSubFail tableGen demoLexicon tableCombos)[0]?
        = some row
      ∧ row.length = tableCombos.length + 1
      ∧ row[0]? = some "paint"
      ∧ row[0 + 1]? = some (genCell reSubFail tableGen lexPaint
          [("cat", some "boom")])
      ∧ (∀ e, tableGen.generate reSubFail lexPaint [("cat", some "boom")]
            = Except.error e →
          genCell reSubFail tableGen lexPaint [("cat", some "boom")] = "—")
      ∧ (∀ v, tableGen.generate reSubFail lexPaint [("cat", some "boom")]
            = Except.ok v →
          genCell reSubFail tableGen lexPaint [("cat", some "boom")] = v) :=
  table_cell_error_isolated reSubFail tableGen demoLexicon tableCombos 0 0
    "paint" lexPaint "boom" [("cat", some "boom")] rfl rfl

/-- C5: the rule list a Generator iterates during generate — the `rules`
field its constructor builds, which `generate` folds over via `applyRules`
— is the stable ascending-order sort of the list supplied: sorted by
`order`, a permutation of the input, and for every order value the rules
carrying it appear exactly in declaration order (the filter
characterization of stability; the three properties determine the stable
sort uniquely). -/
theorem generator_rules_stable_sorted (rules : List MorphRule) :
    List.Sorted ruleLE (Generator.init rules).rules
    ∧ (Generator.init rules).rules.Perm rules
    ∧ ∀ k : Int, (Generator.init rules).rules.filter (fun r => r.order == k)
        = rules.filter (fun r => r.order == k) := by
  refine ⟨List.sorted_insertionSort ruleLE rules,
    List.perm_insertionSort ruleLE rules, ?_⟩
  intro k
  set p : MorphRule → Bool := fun r => r.order == k with hp
  have hmem : ∀ r ∈ rules.filter p, r.order = k := by
    intro r hr
    simpa [hp] using List.of_mem_filter hr
  have hpair : (rules.filter p).Pairwise ruleLE :=
    List.pairwise_of_forall_mem_list (fun a ha b hb => by
      simp [ruleLE, hmem a ha, hmem b hb])
  have hsub : (rules.filter p).Sublist (List.insertionSort ruleLE rules) :=
    List.sublist_insertionSort hpair (List.filter_sublist rules)
  have hsub2 :
      (rules.filter p).Sublist ((List.insertionSort ruleLE rules).filter p) := by
    simpa [List.filter_filter] using hsub.filter p
  have hlen : ((List.insertionSort ruleLE rules).filter p).length
      = (rules.filter p).length :=
    ((List.perm_insertionSort ruleLE rules).filter p).length_eq
  exact (hsub2.eq_of_length hlen.symm).symm

/-- C6: when no irregular override fires, generate folds the rules over the
effective bundle, the merge of the lexeme defaults under the target; the
effective lookup at any key is the target's binding when the target has the
key and the default's otherwise — so on every key present in both the
target's value wins and the lexeme-default value at that key is never
observed by any rule. -/
theorem generate_effective_features (reSub : ReSub) (rules : List MorphRule)
    (lexeme : Lexeme) (target : FeatureBundle)
    (h : lookupStr lexeme.irregular (signatureOf target) = none) :
    (Generator.init rules).generate reSub lexeme target
      = applyRules reSub (Generator.init rules).rules lexeme.stem
          (mergeFB lexeme.features target)
    ∧ (∀ k v, fbGet target k = some v →
        fbGet (mergeFB lexeme.features target) k = some v)
    ∧ (∀ k, fbGet (mergeFB lexeme.features target) k
        = (fbGet target k).or (fbGet lexeme.features k)) := by
  refine ⟨generate_eq_applyRules reSub _ lexeme target h, ?_,
    fun k => fbGet_mergeFB lexeme.features target k⟩
  intro k v hv
  rw [fbGet_mergeFB, hv]
  rfl

/-- C6 witness: a lexeme whose defaults set cat=noun, num=sg, overridden by
the target cat=verb under the worked-example rules. -/
theorem generate_effective_features_w :
    (Generator.init demoRules).generate reSubNone lexDefaults
        [("cat", some "verb")]
      = applyRules reSubNone (Generator.init demoRules).rules
          lexDefaults.stem (mergeFB lexDefaults.features [("cat", some "verb")])
    ∧ (∀ k v, fbGet [("cat", some "verb")] k = some v →
        fbGet (mergeFB lexDefaults.features [("cat", some "verb")]) k = some v)
    ∧ (∀ k, fbGet (mergeFB lexDefaults.features [("cat", some "verb")]) k
        = (fbGet [("cat", some "verb")] k).or (fbGet lexDefaults.features k)) :=
  generate_effective_features reSubNone demoRules lexDefaults
    [("cat", some "verb")] rfl

/-- Entries the paradigm loop emits have canonical serializations outside
the seen set it started from. -/
theorem paradigmLoop_not_seen (rest : List MorphRule)
    (seen : List (List (String × PyVal))) :
    ∀ e ∈ paradigmLoop rest seen, canon e.2 ∉ seen := by
  induction rest generalizing seen with
  | nil => simp [paradigmLoop]
  | cons r rest ih =>
    intro e he
    by_cases h : canon r.when ∈ seen
    · simp only [paradigmLoop, if_pos h] at he
      exact ih seen e he
    · simp only [paradigmLoop, if_neg h, List.mem_cons] at he
      rcases he with he | he
      · subst he
        exact h
      · have hnot := ih (canon r.when :: seen) e he
        exact fun hc => hnot (List.mem_cons_of_mem _ hc)

/-- The paradigm loop never emits two entries with the same canonical
serialization. -/
theorem paradigmLoop_pairwise (rest : List MorphRule)
    (seen : List (List (String × PyVal))) :
    (paradigmLoop rest seen).Pairwise (fun a b => canon a.2 ≠ canon b.2) := by
  induction rest generalizing seen with
  | nil => simp [paradigmLoop]
  | cons r rest ih =>
    by_cases h : canon r.when ∈ seen
    · simpa only [paradigmLoop, if_pos h] using ih seen
    · simp only [paradigmLoop, if_neg h]
      refine List.Pairwise.cons (fun e he => ?_) (ih _)
      have hnot := paradigmLoop_not_seen rest (canon r.when :: seen) e he
      exact fun hc => hnot (hc ▸ List.mem_cons_self _ _)

/-- The bundles the paradigm loop emits are a subsequence of the rules'
`when` bundles, in rule order. -/
theorem paradigmLoop_sublist (rest : List MorphRule)
    (seen : List (List (String × PyVal))) :
    ((paradigmLoop rest seen).map (fun e => e.2)).Sublist
      (rest.map (fun r => r.when)) := by
  induction rest generalizing seen with
  | nil => simp [paradigmLoop]
  | cons r rest ih =>
    by_cases h : canon r.when ∈ seen
    · simp only [paradigmLoop, if_pos h, List.map_cons]
      exact (ih seen).cons _
    · simp only [paradigmLoop, if_neg h, List.map_cons]
      exact (ih _).cons₂ _

/-- C7 amended: for every nonempty rule set, infer_paradigm starts with the
fixed ("base", empty) entry, never emits two entries whose bundles share a
canonical sorted-key serialization, and its subsequent bundles are a
subsequence of the sorted rules' `when` bundles (ascending `order`, ties in
declaration order). For the empty rule set the source returns the empty
list instead (see the counterexample). -/
theorem infer_paradigm_props (rules : List MorphRule) (h : rules ≠ []) :
    (inferParadigm (Generator.init rules)).head? = some ("base", [])
    ∧ (inferParadigm (Generator.init rules)).Pairwise
        (fun a b => canon a.2 ≠ canon b.2)
    ∧ ((inferParadigm (Generator.init rules)).tail.map (fun e => e.2)).Sublist
        ((List.insertionSort ruleLE (Generator.init rules).rules).map
          (fun r => r.when)) := by
  have hne : (Generator.init rules).rules ≠ [] := by
    intro hnil
    have hp := List.perm_insertionSort ruleLE rules
    rw [show (Generator.init rules).rules
        = List.insertionSort ruleLE rules from rfl] at hnil
    rw [hnil] at hp
    exact h hp.symm.eq_nil
  have hE : (Generator.init rules).rules.isEmpty = false := by
    rcases he : (Generator.init rules).rules with _ | ⟨a, l⟩
    · exact absurd he hne
    · rfl
  refine ⟨?_, ?_, ?_⟩
  · simp only [inferParadigm, hE, Bool.false_eq_true, if_false, List.head?]
  · simp only [inferParadigm, hE, Bool.false_eq_true, if_false]
    refine List.Pairwise.cons (fun e he => ?_) (paradigmLoop_pairwise _ _)
    have hnot := paradigmLoop_not_seen _ [[]] e he
    have : canon e.2 ≠ [] := fun hc => hnot (by simp [hc])
    exact fun hc => this (hc ▸ rfl)
  · simp only [inferParadigm, hE, Bool.false_eq_true, if_false, List.tail]
    exact paradigmLoop_sublist _ _

/-- C7 counterexample: with an empty rule set infer_paradigm returns the
empty list, so its first entry is not the fixed base entry — it does not
exist — refuting "its first entry is always (base, empty)" as universally
stated. -/
theorem infer_paradigm_empty_counterexample :
    (inferParadigm (Generator.init [])).head? ≠ some ("base", []) := by
  decide

/-- C7 witness: the amended statement at the worked-example rules. -/
theorem infer_paradigm_props_w :
    (inferParadigm (Generator.init demoRules)).head? = some ("base", [])
    ∧ (inferParadigm (Generator.init demoRules)).Pairwise
        (fun a b => canon a.2 ≠ canon b.2)
    ∧ ((inferParadigm (Generator.init demoRules)).tail.map
        (fun e => e.2)).Sublist
        ((List.insertionSort ruleLE (Generator.init demoRules).rules).map
          (fun r => r.when)) :=
  infer_paradigm_props demoRules (by decide)

end Oiling
